import Mathlib

set_option maxRecDepth 4000

/-!
Verification of the openhands-rs core against its specification.

The definitions below are shallow embeddings of the Rust sources:
* `src/openhands-agent-server-rs/src/tools/file_editor.rs` (`run_file_editor` arms),
* `src/openhands-agent-server-rs/src/patch.rs` (`get_updated_file`, `find_context`,
  `find_context_core` and the context-failure branch of `Parser::parse_update_file`),
* `src/openhands-agent-server-rs/src/bash_service.rs` (`execute_bash_command_background`),
* `src/openhands-sdk-rs/src/runtime/remote.rs` (`RemoteRuntime::execute` dispatch),
* `src/openhands-sdk-rs/src/agent.rs` (`Agent::step`).

File contents are modelled as Lean strings (`Char` lists where the Rust works on byte
indices of valid UTF-8), filesystem writes as explicit state passing, and `usize`
arithmetic as `Nat`, with wrap-around modelled explicitly (`% 2 ^ 64`) at the one spot
where the Rust expression can underflow.
-/

/-! ## Shared text helpers -/

/-- Split a character list at every occurrence of `sep`, keeping empty pieces (the
behaviour of Rust `str::split(char)`). -/
def splitOnChar (sep : Char) : List Char → List (List Char)
  | [] => [[]]
  | x :: xs =>
    match splitOnChar sep xs with
    | [] => [[]]
    | g :: gs => if x = sep then [] :: g :: gs else (x :: g) :: gs

/-- Rust `text.split('\n')` (keeps a trailing empty piece, unlike `str::lines`). -/
def splitNewline (text : String) : List String :=
  (splitOnChar '\n' text.data).map String.mk

/-- Rust `str::lines`: split on newline, a trailing newline does not produce a final
empty line.  (Carriage returns are not modelled; the embedded contents use plain
newlines.) -/
def rustLines (s : String) : List String :=
  let parts := splitNewline s
  if parts.getLast? = some "" then parts.dropLast else parts

/-- Rust `format!("{:6}", n)`: decimal rendering right-aligned to width 6 with spaces. -/
def padNat6 (n : Nat) : String :=
  let s := toString n
  if s.length < 6 then String.mk (List.replicate (6 - s.length) ' ') ++ s else s

/-- Embedding of `make_output` (file_editor.rs): number the snippet lines starting at
`start_line` in `cat -n` style. -/
def make_output (snippet_content : String) (snippet_description : String)
    (start_line : Nat) : String :=
  let lines := rustLines snippet_content
  let numbered := (lines.enum.map fun p => padNat6 (p.1 + start_line) ++ "\t" ++ p.2)
  "Here's the result of running `cat -n` on " ++ snippet_description ++ ":\n"
    ++ String.intercalate "\n" numbered ++ "\n"

/-- Debug-style rendering of a `Vec<usize>` as produced by Rust `format!("{:?}", v)`. -/
def renderNatList (l : List Nat) : String :=
  "[" ++ String.intercalate ", " (l.map toString) ++ "]"

/-! ## file_editor: `str_replace` (file_editor.rs, `run_file_editor` str_replace arm) -/

/-- Rust `str::match_indices` over character lists: the byte indices of the
non-overlapping matches of `pat`, scanned from the left; the empty pattern matches at
every position `0..=len`. -/
def matchIndicesAux (pat : List Char) : Nat → List Char → Nat → List Nat
  | 0, _, _ => []
  | _ + 1, [], i => if pat.isEmpty then [i] else []
  | fuel + 1, c :: rest, i =>
    if pat.isEmpty then i :: matchIndicesAux pat fuel rest (i + 1)
    else if pat.isPrefixOf (c :: rest) then
      i :: matchIndicesAux pat fuel ((c :: rest).drop pat.length) (i + pat.length)
    else matchIndicesAux pat fuel rest (i + 1)

/-- Fuel adequacy: every recursive call of `matchIndicesAux` shortens the scanned list,
so `content.length + 1` steps always suffice. -/
def match_indices (content pat : List Char) : List Nat :=
  matchIndicesAux pat (content.length + 1) content 0

/-- The 1-indexed line number of byte position `idx` inside `content`
(`content[..idx].chars().filter(|&c| c == '\n').count() + 1`). -/
def lineNumberAt (content : List Char) (idx : Nat) : Nat :=
  ((content.take idx).filter fun c => c = '\n').length + 1

/-- Result of one file-editor arm: `pushed` is the content pushed onto the path's
history stack (if any), `written` the content written back to the file (if any), and
`output` the tool output string. -/
structure ArmResult where
  pushed : Option String
  written : Option String
  output : String
deriving Repr, DecidableEq

/-- Embedding of the `str_replace` arm of `run_file_editor` for an existing file with
content `content`.  Mirrors the source: reject `old_str == new_str`, count
`match_indices` occurrences, error on zero or several, otherwise push history, write the
single replacement and render a snippet. -/
def str_replace_arm (path content old_str new_str : String) : ArmResult :=
  if old_str = new_str then
    ⟨none, none, "Error: No replacement was performed. `new_str` and `old_str` must be different. Please provide different values."⟩
  else
    let occurrences := match_indices content.data old_str.data
    if occurrences.isEmpty then
      ⟨none, none, "Error: No replacement was performed, old_str `" ++ old_str
        ++ "` did not appear verbatim in " ++ path
        ++ ". Please check the file content and try again with the correct string."⟩
    else if occurrences.length > 1 then
      let line_numbers := occurrences.map (lineNumberAt content.data)
      ⟨none, none, "Error: No replacement was performed. Multiple occurrences of old_str `"
        ++ old_str ++ "` in lines " ++ renderNatList line_numbers
        ++ ". Please provide more context to make the match unique."⟩
    else
      let idx := occurrences.headD 0
      let replacement_line := lineNumberAt content.data idx
      let new_content := String.mk
        (content.data.take idx ++ new_str.data ++ content.data.drop (idx + old_str.length))
      let start_line := replacement_line - 4
      let end_line := replacement_line + 4 + (new_str.data.filter fun c => c = '\n').length
      let lines := rustLines new_content
      let output_snippet := String.intercalate "\n" ((lines.drop start_line).take (end_line - start_line))
      ⟨some content, some new_content,
        "The file " ++ path ++ " has been edited. "
          ++ make_output output_snippet ("a snippet of " ++ path) (start_line + 1)
          ++ "Review the changes and make sure they are as expected. Edit the file again if necessary."⟩

/-! ## file_editor: `insert` arm (file_editor.rs) -/

/-- Embedding of the `insert` arm of `run_file_editor` for an existing file with content
`content`.  Mirrors the source order: the history push happens right after the file is
read and before `insert_line` is validated; the index is `insert_line.saturating_sub(1)`
(`Nat` subtraction); an index beyond `lines.len()` is rejected. -/
def insert_arm (path content : String) (insert_line : Nat) (text_to_insert : String) :
    ArmResult :=
  let pushed := some content
  let lines := rustLines content
  let idx := insert_line - 1
  if idx > lines.length then
    ⟨pushed, none, "Error: insert_line " ++ toString insert_line
      ++ " should be within the range of allowed values: [0, " ++ toString lines.length ++ "]"⟩
  else
    let inserted_lines_count := (rustLines text_to_insert).length
    let new_lines :=
      if idx = lines.length then lines ++ [text_to_insert]
      else lines.take idx ++ [text_to_insert] ++ lines.drop idx
    let new_content := String.intercalate "\n" new_lines
    let start_line := insert_line - 4
    let end_line := insert_line + 4 + inserted_lines_count
    let output_snippet :=
      String.intercalate "\n" (((rustLines new_content).drop start_line).take (end_line - start_line))
    ⟨pushed, some new_content,
      "The file " ++ path ++ " has been edited. "
        ++ make_output output_snippet "a snippet of the edited file" (start_line + 1)
        ++ "Review the changes and make sure they are as expected (correct indentation, no duplicate lines, etc). Edit the file again if necessary."⟩

/-! ## file_editor: history state machine (str_replace / insert / undo_edit) -/

/-- Editor state for one path: the file content on disk and the per-path history stack
(`Vec<String>`; the stack top is modelled at the head of the list). -/
structure EditorState where
  content : String
  history : List String
deriving Repr, DecidableEq

/-- Apply an arm result to the state: push the recorded history entry (if any) and write
the new content (if any). -/
def applyArm (st : EditorState) (r : ArmResult) : EditorState :=
  { content := r.written.getD st.content,
    history := match r.pushed with
      | some c => c :: st.history
      | none => st.history }

def strReplaceStep (path old_str new_str : String) (st : EditorState) :
    EditorState × String :=
  let r := str_replace_arm path st.content old_str new_str
  (applyArm st r, r.output)

def insertStep (path : String) (insert_line : Nat) (text : String) (st : EditorState) :
    EditorState × String :=
  let r := insert_arm path st.content insert_line text
  (applyArm st r, r.output)

/-- Embedding of the `undo_edit` arm of `run_file_editor`: pop the history stack and
write the popped content back, or report that no history exists. -/
def undoEditStep (path : String) (st : EditorState) : EditorState × String :=
  match st.history with
  | [] => (st, "Error: No edit history found for " ++ path)
  | prev_content :: rest =>
    (⟨prev_content, rest⟩,
      "Last edit to " ++ path ++ " undone successfully. "
        ++ make_output prev_content path 1)

/-! ## file_editor: `view` arm for a regular file (file_editor.rs) -/

/-- Width of `usize` as built for the 64-bit targets the server runs on. -/
def usizeMod : Nat := 2 ^ 64

/-- Rendering step of the `view` arm once `start_line`/`end_line` are fixed.  The Rust
snippet length `end_line - start_line + 1` is `usize` arithmetic: this variant models the
release-profile wrap-around semantics explicitly. -/
def viewRenderWrap (path : String) (lines : List String) (start_line end_line0 : Nat) :
    String :=
  let end_line := min end_line0 lines.length
  let take_count := ((end_line + usizeMod - start_line) % usizeMod + 1) % usizeMod
  let snippet := String.intercalate "\n" ((lines.drop (start_line - 1)).take take_count)
  make_output snippet path start_line

/-- Rendering step of the `view` arm under debug-profile semantics, where the `usize`
subtraction `end_line - start_line` panics on underflow (`none` = panic). -/
def viewRenderChecked (path : String) (lines : List String) (start_line end_line0 : Nat) :
    Option String :=
  let end_line := min end_line0 lines.length
  if start_line ≤ end_line then
    let snippet :=
      String.intercalate "\n" ((lines.drop (start_line - 1)).take (end_line - start_line + 1))
    some (make_output snippet path start_line)
  else none

/-- Range validation of the `view` arm for a regular file, shared by both semantics:
returns an error string or the resolved `(start_line, end_line)` pair. -/
def viewResolveRange (content : String) (view_range : Option (List Nat)) :
    Except String (Nat × Nat) :=
  let num_lines := (rustLines content).length
  match view_range with
  | some range =>
    if range.length ≠ 2 then .error "Error: view_range should be a list of two integers."
    else
      let s := range.headD 0
      let e := (range.drop 1).headD 0
      if s < 1 ∨ s > num_lines then
        .error ("Error: Its first element `" ++ toString s
          ++ "` should be within the range of lines of the file: [1, " ++ toString num_lines ++ "].")
      else if e < s then
        .error ("Error: Its second element `" ++ toString e
          ++ "` should be greater than or equal to the first element `" ++ toString s ++ "`.")
      else .ok (s, e)
  | none => .ok (1, num_lines)

/-- The `view` arm for an existing regular file, release-profile (wrapping) semantics. -/
def view_arm_wrap (path content : String) (view_range : Option (List Nat)) : String :=
  match viewResolveRange content view_range with
  | .error e => e
  | .ok (s, e) => viewRenderWrap path (rustLines content) s e

/-- The `view` arm for an existing regular file, debug-profile (checked) semantics;
`none` models an arithmetic-overflow panic. -/
def view_arm_checked (path content : String) (view_range : Option (List Nat)) :
    Option String :=
  match viewResolveRange content view_range with
  | .error e => some e
  | .ok (s, e) => viewRenderChecked path (rustLines content) s e

/-! ## Patch engine: `get_updated_file` (patch.rs) -/

/-- A patch chunk: absolute line offset into the target file, deleted lines, inserted
lines (patch.rs `struct Chunk`). -/
structure Chunk where
  orig_index : Nat
  del_lines : List String
  ins_lines : List String
deriving Repr, DecidableEq

/-- Loop body of `get_updated_file`: `cursor` is the Rust `orig_index` local, `dest` the
accumulated `dest_lines`.  The two guard errors mirror the source messages.  The outer
`Option` models a Rust panic (`none`): the final tail slice `orig_lines[orig_index..]`
is taken without a bounds guard and panics when the cursor has advanced past the end of
the file. -/
def getUpdatedFileGo (origLines : List String) (path : String) :
    List Chunk → Nat → List String → Option (Except String (List String))
  | [], cursor, dest =>
    if cursor > origLines.length then none
    else some (.ok (dest ++ origLines.drop cursor))
  | chunk :: rest, cursor, dest =>
    if chunk.orig_index > origLines.length then
      some (.error (path ++ ": chunk.orig_index " ++ toString chunk.orig_index
        ++ " > len(lines) " ++ toString origLines.length))
    else if cursor > chunk.orig_index then
      some (.error (path ++ ": orig_index " ++ toString cursor
        ++ " > chunk.orig_index " ++ toString chunk.orig_index))
    else
      getUpdatedFileGo origLines path rest (chunk.orig_index + chunk.del_lines.length)
        (dest ++ (origLines.drop cursor).take (chunk.orig_index - cursor) ++ chunk.ins_lines)

/-- Embedding of `get_updated_file` for an `Update` action with the given chunks.
`none` models a panic; otherwise the `Except` carries the `DiffError` message or the
reconstructed file text. -/
def get_updated_file (text : String) (chunks : List Chunk) (path : String) :
    Option (Except String String) :=
  (getUpdatedFileGo (splitNewline text) path chunks 0 []).map
    (fun r => r.map (String.intercalate "\n"))

/-- Validity of a chunk list against a file of `n` lines starting from `cursor`: each
chunk's `orig_index` stays within the file and never precedes the cursor reached after
the previous chunk. -/
def chunksOk (n : Nat) : List Chunk → Nat → Bool
  | [], _ => true
  | chunk :: rest, cursor =>
    if chunk.orig_index > n then false
    else if cursor > chunk.orig_index then false
    else chunksOk n rest (chunk.orig_index + chunk.del_lines.length)

/-- The cursor position after consuming all chunks (starting from `cursor`). -/
def finalCursor : List Chunk → Nat → Nat
  | [], cursor => cursor
  | chunk :: rest, _ => finalCursor rest (chunk.orig_index + chunk.del_lines.length)

/-- Reconstruction pass exactly as the specification words it: for each chunk copy
`[cursor, chunk.orig_index)` verbatim, emit `ins_lines`, advance the cursor past
`len(del_lines)` original lines; after the last chunk copy the tail. -/
def reconstructWalk (origLines : List String) : List Chunk → Nat → List String
  | [], cursor => origLines.drop cursor
  | chunk :: rest, cursor =>
    (origLines.drop cursor).take (chunk.orig_index - cursor) ++ chunk.ins_lines
      ++ reconstructWalk origLines rest (chunk.orig_index + chunk.del_lines.length)

/-! ## Patch engine: `find_context_core` / `find_context` (patch.rs) -/

/-- One candidate position of the scan loops of `find_context_core`: the window at `i`
fits inside the file and every context line agrees with the file line under the
normalisation `norm` (`id`, `trim_end`, or `trim`). -/
def matchesAt (norm : String → String) (lines ctx : List String) (i : Nat) : Bool :=
  decide (i + ctx.length ≤ lines.length)
    && (List.range ctx.length).all fun j => norm (lines.getD (i + j) "") == norm (ctx.getD j "")

/-- The Rust `for i in start..lines.len()` scan: first `i` from `start` on at which the
context matches under `norm`. -/
def findContextIdx (norm : String → String) (lines ctx : List String) (start : Nat) :
    Option Nat :=
  (List.range' start (lines.length - start)).find? (matchesAt norm lines ctx)

/-- Embedding of `find_context_core`: empty context matches at `start` with fuzz 0;
otherwise the exact, rstrip and strip passes in order, with fuzz 0 / 1 / 100. -/
def find_context_core (lines ctx : List String) (start : Nat) : Option (Nat × Nat) :=
  if ctx.isEmpty then some (start, 0)
  else
    match findContextIdx id lines ctx start with
    | some i => some (i, 0)
    | none =>
      match findContextIdx String.trimRight lines ctx start with
      | some i => some (i, 1)
      | none =>
        match findContextIdx String.trim lines ctx start with
        | some i => some (i, 100)
        | none => none

/-- Embedding of `find_context`: with the EOF sentinel first try
`lines.len().saturating_sub(ctx.len())`, then fall back to `start` adding 10000 to the
fuzz; without EOF just search from `start`. -/
def find_context (lines ctx : List String) (start : Nat) (eof : Bool) :
    Option (Nat × Nat) :=
  if eof then
    match find_context_core lines ctx (lines.length - ctx.length) with
    | some r => some r
    | none =>
      match find_context_core lines ctx start with
      | some (i, f) => some (i, f + 10000)
      | none => find_context_core lines ctx start
  else find_context_core lines ctx start

/-- The `DiffError` raised by `Parser::parse_update_file` when no pass matches. -/
def invalidContextMessage (index : Nat) (ctx : List String) : String :=
  "Invalid Context " ++ toString index ++ ":\n" ++ String.intercalate "\n" ctx

/-- The context-resolution step of `Parser::parse_update_file`: a successful
`find_context` yields the matched position and fuzz; failure aborts the whole patch with
the `Invalid Context` message. -/
def matchSection (lines ctx : List String) (index : Nat) (eof : Bool) :
    Except String (Nat × Nat) :=
  match find_context lines ctx index eof with
  | some r => .ok r
  | none => .error (invalidContextMessage index ctx)

/-! ## RemoteRuntime::execute dispatch (remote.rs) -/

/-- The routing decision of `RemoteRuntime::execute`: the guarded `action` names, in
source order, map to the fixed endpoint paths POSTed on the peer server; any other name
falls through to the unsupported-tool error. -/
def remote_execute_dispatch (action : String) : Except String String :=
  if action = "cmd" then .ok "/bash/execute_bash_command"
  else if action = "read_file" then .ok "/file/read"
  else if action = "write_file" then .ok "/file/write"
  else .error ("Tool " ++ action ++ " not yet supported via RemoteRuntime API")

/-! ## Bash executor background task (bash_service.rs) -/

/-- The fields of a `BashCommand` event that the background task consumes (UUID and
timestamp abstracted to opaque data). -/
structure BashCommandSpec where
  id : String
  command : String
  cwd : Option String
  timeout : Nat
deriving Repr, DecidableEq

/-- Terminal `BashOutput` event data (id and timestamp abstracted away). -/
structure BashOutputData where
  command_id : String
  order : Int
  exit_code : Option Int
  stdout : Option String
  stderr : Option String
deriving Repr, DecidableEq

/-- Observable effects of `execute_bash_command_background`: killing the child process
and persisting an output event. -/
inductive BashEffect where
  | killChild
  | saveOutput (out : BashOutputData)
deriving Repr, DecidableEq

/-- How the awaited child process ended: spawn failure, completion (with `None` when the
platform reports no exit code or the wait errs), or the `tokio::time::timeout` deadline
firing first. -/
inductive ExecOutcome where
  | spawnFailed (reason : String)
  | completed (code : Option Int) (stdout stderr : String)
  | timedOut
deriving Repr, DecidableEq

/-- Rust `if s.is_empty() { None } else { Some(s) }`. -/
def optIfEmpty (s : String) : Option String :=
  if s.isEmpty then none else some s

/-- Embedding of `execute_bash_command_background` as the list of effects it performs in
order, given how the child execution resolved. -/
def execute_bash_command_background (command : BashCommandSpec) (outcome : ExecOutcome) :
    List BashEffect :=
  match outcome with
  | .spawnFailed reason =>
    [.saveOutput ⟨command.id, 0, some (-1), none, some ("Failed to spawn: " ++ reason)⟩]
  | .completed code stdout stderr =>
    [.saveOutput ⟨command.id, 0, some (code.getD (-1)), optIfEmpty stdout, optIfEmpty stderr⟩]
  | .timedOut =>
    [.killChild, .saveOutput ⟨command.id, 0, some (-1), none, some "Command timed out"⟩]

/-! ## Agent loop (agent.rs, `Agent::step`) -/

/-- A tool call emitted by the model (genai `ToolCall`; JSON arguments abstracted to a
string). -/
structure ToolCallData where
  call_id : String
  fn_name : String
  fn_arguments : String
deriving Repr, DecidableEq

/-- A model completion: assistant text plus the emitted tool calls, in order. -/
structure Completion where
  content : String
  tool_calls : List ToolCallData
deriving Repr, DecidableEq

/-- Chat transcript entries as `Agent::step` builds them. -/
inductive ChatMsg where
  | system (content : String)
  | user (content : String)
  | assistant (content : String)
  | assistantParts (text : Option String) (calls : List ToolCallData)
  | toolResponse (call_id content : String)
deriving Repr, DecidableEq

/-- Agent-layer events (events.rs `Event`; argument JSON abstracted to a string). -/
inductive AgentEvent where
  | message (source content : String)
  | action (source tool_name tool_call_id arguments : String) (thought : Option String)
  | observation (source tool_name tool_call_id content : String)
deriving Repr, DecidableEq

/-- Transcript construction of `Agent::step`: the combined system prompt followed by one
chat turn per history event. -/
def historyToMessages (system_message : String) (history : List AgentEvent) :
    List ChatMsg :=
  ChatMsg.system system_message :: history.map fun e =>
    match e with
    | .message source content =>
      if source = "user" then ChatMsg.user content else ChatMsg.assistant content
    | .action _ tool_name tool_call_id arguments thought =>
      ChatMsg.assistantParts thought [⟨tool_call_id, tool_name, arguments⟩]
    | .observation _ _ tool_call_id content => ChatMsg.toolResponse tool_call_id content

/-- The observation text recorded for one tool call: a runtime failure is rewritten into
the transcript as an `Error: `-prefixed message. -/
def toolOutput (exec : String → String → Except String String) (tc : ToolCallData) :
    String :=
  match exec tc.fn_name tc.fn_arguments with
  | .ok s => s
  | .error e => "Error: " ++ e

/-- The assistant turn pushed for a completion with tool calls: the text part only when
the content is non-empty, then the tool-call parts. -/
def assistantTurn (response : Completion) : ChatMsg :=
  ChatMsg.assistantParts
    (if response.content.isEmpty then none else some response.content)
    response.tool_calls

/-- One iteration of the `Agent::step` loop on the working transcript: when the
completion carries tool calls, append the assistant turn and then, for each tool call in
emitted order, the tool-response turn; otherwise leave the transcript unchanged (the
loop returns). -/
def iterBody (llm : List ChatMsg → Completion)
    (exec : String → String → Except String String) (msgs : List ChatMsg) :
    List ChatMsg :=
  let response := llm msgs
  if response.tool_calls.isEmpty then msgs
  else
    (msgs ++ [assistantTurn response])
      ++ response.tool_calls.map fun tc => ChatMsg.toolResponse tc.call_id (toolOutput exec tc)

/-- The `for _ in 0..max_iterations` loop of `Agent::step`, with the model and the
runtime's `execute` as oracles: each round calls the model; no tool calls terminates
with the agent message; otherwise the transcript grows by `iterBody` and the loop
continues; exhausting the budget is the fatal error. -/
def stepLoop (llm : List ChatMsg → Completion)
    (exec : String → String → Except String String) :
    Nat → List ChatMsg → Except String AgentEvent
  | 0, _ => .error "Max iterations reached"
  | n + 1, msgs =>
    let response := llm msgs
    if response.tool_calls.isEmpty then
      .ok (.message "agent" response.content)
    else stepLoop llm exec n (iterBody llm exec msgs)

/-- Embedding of `Agent::step`: build the transcript from history and run the loop with
`max_iterations = 10`. -/
def agentStep (llm : List ChatMsg → Completion)
    (exec : String → String → Except String String) (system_message : String)
    (history : List AgentEvent) : Except String AgentEvent :=
  stepLoop llm exec 10 (historyToMessages system_message history)

/-! ## Specification-side predicates -/

/-- Position `i` is the first match location at or after `start` for the pass `norm`. -/
def FirstHitFrom (norm : String → String) (lines ctx : List String) (start i : Nat) :
    Prop :=
  start ≤ i ∧ matchesAt norm lines ctx i = true
    ∧ ∀ k < i, start ≤ k → matchesAt norm lines ctx k = false

instance (norm : String → String) (lines ctx : List String) (start i : Nat) :
    Decidable (FirstHitFrom norm lines ctx start i) := by
  unfold FirstHitFrom; infer_instance

/-- No position at or after `start` matches under the pass `norm`. -/
def NoHitFrom (norm : String → String) (lines ctx : List String) (start : Nat) : Prop :=
  ∀ k, start ≤ k → matchesAt norm lines ctx k = false

/-! # Theorems -/

/-! ## C1: `get_updated_file` reconstruction -/

theorem getUpdatedFileGo_ok (origLines : List String) (path : String) :
    ∀ (chunks : List Chunk) (cursor : Nat) (dest : List String),
      chunksOk origLines.length chunks cursor = true →
      finalCursor chunks cursor ≤ origLines.length →
      getUpdatedFileGo origLines path chunks cursor dest
        = some (.ok (dest ++ reconstructWalk origLines chunks cursor)) := by
  intro chunks
  induction chunks with
  | nil =>
    intro cursor dest _ hfc
    simp only [finalCursor] at hfc
    simp [getUpdatedFileGo, reconstructWalk, Nat.not_lt.mpr hfc]
  | cons c rest ih =>
    intro cursor dest h hfc
    simp only [chunksOk] at h
    by_cases h1 : c.orig_index > origLines.length
    · simp [h1] at h
    · by_cases h2 : cursor > c.orig_index
      · simp [h1, h2] at h
      · simp only [finalCursor] at hfc
        simp only [h1, h2, if_false] at h
        simp only [getUpdatedFileGo, if_neg h1, if_neg h2]
        rw [ih _ _ h hfc]
        simp [reconstructWalk, List.append_assoc]

theorem getUpdatedFileGo_panic (origLines : List String) (path : String) :
    ∀ (chunks : List Chunk) (cursor : Nat) (dest : List String),
      chunksOk origLines.length chunks cursor = true →
      origLines.length < finalCursor chunks cursor →
      getUpdatedFileGo origLines path chunks cursor dest = none := by
  intro chunks
  induction chunks with
  | nil =>
    intro cursor dest _ hfc
    simp only [finalCursor] at hfc
    simp [getUpdatedFileGo, hfc]
  | cons c rest ih =>
    intro cursor dest h hfc
    simp only [chunksOk] at h
    by_cases h1 : c.orig_index > origLines.length
    · simp [h1] at h
    · by_cases h2 : cursor > c.orig_index
      · simp [h1, h2] at h
      · simp only [finalCursor] at hfc
        simp only [h1, h2, if_false] at h
        simp only [getUpdatedFileGo, if_neg h1, if_neg h2]
        exact ih _ _ h hfc

theorem string_append_assoc (a b c : String) : a ++ b ++ c = a ++ (b ++ c) := by
  apply String.ext
  simp [String.data_append, List.append_assoc]

theorem getUpdatedFileGo_err (origLines : List String) (path : String) :
    ∀ (chunks : List Chunk) (cursor : Nat) (dest : List String),
      chunksOk origLines.length chunks cursor = false →
      ∃ s, getUpdatedFileGo origLines path chunks cursor dest = some (.error (path ++ s)) := by
  intro chunks
  induction chunks with
  | nil => intro cursor dest h; simp [chunksOk] at h
  | cons c rest ih =>
    intro cursor dest h
    simp only [chunksOk] at h
    by_cases h1 : c.orig_index > origLines.length
    · refine ⟨": chunk.orig_index " ++ toString c.orig_index ++ " > len(lines) "
        ++ toString origLines.length, ?_⟩
      simp [getUpdatedFileGo, h1, string_append_assoc]
    · by_cases h2 : cursor > c.orig_index
      · refine ⟨": orig_index " ++ toString cursor ++ " > chunk.orig_index "
          ++ toString c.orig_index, ?_⟩
        simp [getUpdatedFileGo, if_neg h1, h2, string_append_assoc]
      · simp only [h1, h2, if_false] at h
        obtain ⟨s, hs⟩ := ih _ (dest ++ (origLines.drop cursor).take (c.orig_index - cursor) ++ c.ins_lines) h
        exact ⟨s, by simp only [getUpdatedFileGo, if_neg h1, if_neg h2]; exact hs⟩

/-- Claim C1 (amended): for an `Update` action, whenever every chunk's `orig_index` is
within the file and does not precede the cursor reached after the previous chunk
(`chunksOk`), and the cursor after the last chunk does not pass the end of the file,
`get_updated_file` returns exactly the reconstruction the specification describes:
copy `[cursor, chunk.orig_index)`, emit `ins_lines`, advance past `len(del_lines)`, and
copy the tail.  It returns an error — whose message starts with the path — exactly when
some chunk violates `chunksOk`.  When the chunks pass the checks but the final cursor
overruns the file, the function panics (the unguarded tail slice), modelled as `none`,
instead of returning. -/
theorem get_updated_file_spec (text : String) (chunks : List Chunk) (path : String) :
    (chunksOk (splitNewline text).length chunks 0 = true →
      finalCursor chunks 0 ≤ (splitNewline text).length →
      get_updated_file text chunks path
        = some (.ok (String.intercalate "\n" (reconstructWalk (splitNewline text) chunks 0))))
    ∧ (chunksOk (splitNewline text).length chunks 0 = true →
      (splitNewline text).length < finalCursor chunks 0 →
      get_updated_file text chunks path = none)
    ∧ ((∃ e, get_updated_file text chunks path = some (.error e)) ↔
      chunksOk (splitNewline text).length chunks 0 = false)
    ∧ (chunksOk (splitNewline text).length chunks 0 = false →
      ∃ s, get_updated_file text chunks path = some (.error (path ++ s))) := by
  refine ⟨?_, ?_, ?_, ?_⟩
  · intro h hfc
    unfold get_updated_file
    rw [getUpdatedFileGo_ok _ path chunks 0 [] h hfc]
    simp [Except.map]
  · intro h hfc
    unfold get_updated_file
    rw [getUpdatedFileGo_panic _ path chunks 0 [] h hfc]
    rfl
  · constructor
    · rintro ⟨e, he⟩
      by_contra hok
      rw [Bool.not_eq_false] at hok
      rcases Nat.lt_or_ge (splitNewline text).length (finalCursor chunks 0) with hfc | hfc
      · rw [(by unfold get_updated_file; rw [getUpdatedFileGo_panic _ path chunks 0 [] hok hfc]; rfl :
          get_updated_file text chunks path = none)] at he
        exact Option.noConfusion he
      · unfold get_updated_file at he
        rw [getUpdatedFileGo_ok _ path chunks 0 [] hok hfc] at he
        simp [Except.map] at he
    · intro h
      obtain ⟨s, hs⟩ := getUpdatedFileGo_err (splitNewline text) path chunks 0 [] h
      refine ⟨path ++ s, ?_⟩
      unfold get_updated_file
      rw [hs]
      rfl
  · intro h
    obtain ⟨s, hs⟩ := getUpdatedFileGo_err (splitNewline text) path chunks 0 [] h
    refine ⟨s, ?_⟩
    unfold get_updated_file
    rw [hs]
    rfl

/-- Witness for C1 at the concrete update of `"line1\nline2\nline3"` replacing `line2`. -/
theorem get_updated_file_spec_witness :
    chunksOk (splitNewline "line1\nline2\nline3").length [⟨1, ["line2"], ["line2_modified"]⟩] 0 = true
    ∧ finalCursor [⟨1, ["line2"], ["line2_modified"]⟩] 0 ≤ (splitNewline "line1\nline2\nline3").length
    ∧ get_updated_file "line1\nline2\nline3" [⟨1, ["line2"], ["line2_modified"]⟩] "file.txt"
      = some (.ok (String.intercalate "\n"
          (reconstructWalk (splitNewline "line1\nline2\nline3") [⟨1, ["line2"], ["line2_modified"]⟩] 0))) :=
  ⟨by decide, by decide,
    (get_updated_file_spec "line1\nline2\nline3" [⟨1, ["line2"], ["line2_modified"]⟩] "file.txt").1
      (by decide) (by decide)⟩

/-- Counterexample to C1 as stated: the chunk `⟨1, ["x", "y"], []⟩` against the one-line
file `"a"` passes both stated error conditions (`orig_index = 1 ≤ 1` and cursor `0 ≤ 1`),
so the claim promises a reconstructed result, yet the code's final tail slice
`orig_lines[3..]` is out of bounds and panics (`none`). -/
theorem get_updated_file_overrun_panics :
    chunksOk (splitNewline "a").length [⟨1, ["x", "y"], []⟩] 0 = true
    ∧ get_updated_file "a" [⟨1, ["x", "y"], []⟩] "f" = none := by
  exact ⟨by decide, rfl⟩

/-! ## C2: `find_context` passes and fuzz scores -/

theorem matchesAt_true_bound {norm : String → String} {lines ctx : List String} {k : Nat}
    (h : matchesAt norm lines ctx k = true) : k + ctx.length ≤ lines.length := by
  simp only [matchesAt, Bool.and_eq_true, decide_eq_true_eq] at h
  exact h.1

theorem find?_range'_eq_some_iff {p : Nat → Bool} :
    ∀ {n s i : Nat}, ((List.range' s n).find? p = some i ↔
      s ≤ i ∧ i < s + n ∧ p i = true ∧ ∀ k < i, s ≤ k → p k = false) := by
  intro n
  induction n with
  | zero =>
    intro s i
    simp only [List.range', List.find?_nil]
    constructor
    · intro h; exact Option.noConfusion h
    · intro ⟨h1, h2, _⟩; omega
  | succ n ih =>
    intro s i
    rw [List.range'_succ]
    by_cases hp : p s = true
    · rw [List.find?_cons_of_pos _ hp]
      constructor
      · intro h
        obtain rfl : s = i := by simpa using h
        exact ⟨Nat.le_refl s, by omega, hp, fun k hk hsk => by omega⟩
      · rintro ⟨h1, _, _, h4⟩
        rcases Nat.eq_or_lt_of_le h1 with rfl | hlt
        · rfl
        · exact absurd hp (by simpa using h4 s hlt (Nat.le_refl s))
    · rw [List.find?_cons_of_neg _ hp, ih]
      constructor
      · rintro ⟨h1, h2, h3, h4⟩
        refine ⟨by omega, by omega, h3, fun k hk hsk => ?_⟩
        rcases Nat.eq_or_lt_of_le hsk with rfl | hlt
        · simpa using hp
        · exact h4 k hk hlt
      · rintro ⟨h1, h2, h3, h4⟩
        have hsi : s ≠ i := by rintro rfl; exact hp h3
        refine ⟨by omega, by omega, h3, fun k hk hsk => h4 k hk (by omega)⟩

theorem findContextIdx_some_iff (norm : String → String) (lines ctx : List String)
    (hctx : ctx ≠ []) (start i : Nat) :
    findContextIdx norm lines ctx start = some i ↔ FirstHitFrom norm lines ctx start i := by
  have hpos : 0 < ctx.length := List.length_pos.mpr hctx
  rw [findContextIdx, find?_range'_eq_some_iff, FirstHitFrom]
  constructor
  · rintro ⟨h1, _, h3, h4⟩
    exact ⟨h1, h3, fun k hk hsk => h4 k hk hsk⟩
  · rintro ⟨h1, h2, h3⟩
    have hb := matchesAt_true_bound h2
    exact ⟨h1, by omega, h2, fun k hk hsk => h3 k hk hsk⟩

theorem findContextIdx_none_iff (norm : String → String) (lines ctx : List String)
    (hctx : ctx ≠ []) (start : Nat) :
    findContextIdx norm lines ctx start = none ↔ NoHitFrom norm lines ctx start := by
  have hpos : 0 < ctx.length := List.length_pos.mpr hctx
  rw [findContextIdx, List.find?_eq_none, NoHitFrom]
  constructor
  · intro h k hk
    by_cases hkm : matchesAt norm lines ctx k = true
    · have hb := matchesAt_true_bound hkm
      have hmem : k ∈ List.range' start (lines.length - start) := by
        rw [List.mem_range'_1]
        omega
      exact absurd hkm (h k hmem)
    · exact Bool.eq_false_iff.mpr hkm
  · intro h x hx
    have hsx := (List.mem_range'_1.mp hx).1
    simp [h x hsx]

theorem FirstHitFrom_unique {norm : String → String} {lines ctx : List String}
    {start i j : Nat} (hi : FirstHitFrom norm lines ctx start i)
    (hj : FirstHitFrom norm lines ctx start j) : i = j := by
  by_contra hne
  rcases Nat.lt_or_ge i j with hlt | hge
  · exact absurd hi.2.1 (by simp [hj.2.2 i hlt hi.1])
  · have hlt : j < i := by omega
    exact absurd hj.2.1 (by simp [hi.2.2 j hlt hj.1])

theorem FirstHitFrom_not_noHit {norm : String → String} {lines ctx : List String}
    {start i : Nat} (hi : FirstHitFrom norm lines ctx start i)
    (hn : NoHitFrom norm lines ctx start) : False := by
  have := hn i hi.1
  rw [hi.2.1] at this
  exact Bool.noConfusion this

theorem find_context_core_classify (lines ctx : List String) (start : Nat)
    (hctx : ctx ≠ []) :
    (∀ i, find_context_core lines ctx start = some (i, 0) ↔ FirstHitFrom id lines ctx start i)
    ∧ (∀ i, find_context_core lines ctx start = some (i, 1) ↔
        NoHitFrom id lines ctx start ∧ FirstHitFrom String.trimRight lines ctx start i)
    ∧ (∀ i, find_context_core lines ctx start = some (i, 100) ↔
        NoHitFrom id lines ctx start ∧ NoHitFrom String.trimRight lines ctx start
          ∧ FirstHitFrom String.trim lines ctx start i)
    ∧ (find_context_core lines ctx start = none ↔
        NoHitFrom id lines ctx start ∧ NoHitFrom String.trimRight lines ctx start
          ∧ NoHitFrom String.trim lines ctx start) := by
  have hne : ctx.isEmpty = false := by
    cases ctx
    · exact absurd rfl hctx
    · rfl
  rcases h1 : findContextIdx id lines ctx start with _ | j1
  · have hn1 : NoHitFrom id lines ctx start := (findContextIdx_none_iff _ _ _ hctx _).mp h1
    rcases h2 : findContextIdx String.trimRight lines ctx start with _ | j2
    · have hn2 : NoHitFrom String.trimRight lines ctx start :=
        (findContextIdx_none_iff _ _ _ hctx _).mp h2
      rcases h3 : findContextIdx String.trim lines ctx start with _ | j3
      · have hn3 : NoHitFrom String.trim lines ctx start :=
          (findContextIdx_none_iff _ _ _ hctx _).mp h3
        refine ⟨?_, ?_, ?_, ?_⟩
        · intro i
          simp only [find_context_core, hne, Bool.false_eq_true, if_false, h1, h2, h3]
          constructor
          · intro h; exact Option.noConfusion h
          · intro h; exact absurd h (fun hf => FirstHitFrom_not_noHit hf hn1)
        · intro i
          simp only [find_context_core, hne, Bool.false_eq_true, if_false, h1, h2, h3]
          constructor
          · intro h; exact Option.noConfusion h
          · intro h; exact absurd h.2 (fun hf => FirstHitFrom_not_noHit hf hn2)
        · intro i
          simp only [find_context_core, hne, Bool.false_eq_true, if_false, h1, h2, h3]
          constructor
          · intro h; exact Option.noConfusion h
          · intro h; exact absurd h.2.2 (fun hf => FirstHitFrom_not_noHit hf hn3)
        · simp only [find_context_core, hne, Bool.false_eq_true, if_false, h1, h2, h3]
          exact ⟨fun _ => ⟨hn1, hn2, hn3⟩, fun _ => trivial⟩
      · have hf3 : FirstHitFrom String.trim lines ctx start j3 :=
          (findContextIdx_some_iff _ _ _ hctx _ _).mp h3
        refine ⟨?_, ?_, ?_, ?_⟩
        · intro i
          simp only [find_context_core, hne, Bool.false_eq_true, if_false, h1, h2, h3]
          constructor
          · intro h; simp [Prod.ext_iff] at h
          · intro h; exact absurd h (fun hf => FirstHitFrom_not_noHit hf hn1)
        · intro i
          simp only [find_context_core, hne, Bool.false_eq_true, if_false, h1, h2, h3]
          constructor
          · intro h; simp [Prod.ext_iff] at h
          · intro h; exact absurd h.2 (fun hf => FirstHitFrom_not_noHit hf hn2)
        · intro i
          simp only [find_context_core, hne, Bool.false_eq_true, if_false, h1, h2, h3]
          constructor
          · intro h
            obtain ⟨rfl, -⟩ : j3 = i ∧ (100 : Nat) = 100 := by simpa [Prod.ext_iff] using h
            exact ⟨hn1, hn2, hf3⟩
          · rintro ⟨-, -, hf⟩
            rw [FirstHitFrom_unique hf3 hf]
        · simp only [find_context_core, hne, Bool.false_eq_true, if_false, h1, h2, h3]
          constructor
          · intro h; exact Option.noConfusion h
          · rintro ⟨-, -, hn⟩; exact (FirstHitFrom_not_noHit hf3 hn).elim
    · have hf2 : FirstHitFrom String.trimRight lines ctx start j2 :=
        (findContextIdx_some_iff _ _ _ hctx _ _).mp h2
      refine ⟨?_, ?_, ?_, ?_⟩
      · intro i
        simp only [find_context_core, hne, Bool.false_eq_true, if_false, h1, h2]
        constructor
        · intro h; simp [Prod.ext_iff] at h
        · intro h; exact absurd h (fun hf => FirstHitFrom_not_noHit hf hn1)
      · intro i
        simp only [find_context_core, hne, Bool.false_eq_true, if_false, h1, h2]
        constructor
        · intro h
          obtain ⟨rfl, -⟩ : j2 = i ∧ (1 : Nat) = 1 := by simpa [Prod.ext_iff] using h
          exact ⟨hn1, hf2⟩
        · rintro ⟨-, hf⟩
          rw [FirstHitFrom_unique hf2 hf]
      · intro i
        simp only [find_context_core, hne, Bool.false_eq_true, if_false, h1, h2]
        constructor
        · intro h; simp [Prod.ext_iff] at h
        · rintro ⟨-, hn, -⟩; exact (FirstHitFrom_not_noHit hf2 hn).elim
      · simp only [find_context_core, hne, Bool.false_eq_true, if_false, h1, h2]
        constructor
        · intro h; exact Option.noConfusion h
        · rintro ⟨-, hn, -⟩; exact (FirstHitFrom_not_noHit hf2 hn).elim
  · have hf1 : FirstHitFrom id lines ctx start j1 :=
      (findContextIdx_some_iff _ _ _ hctx _ _).mp h1
    refine ⟨?_, ?_, ?_, ?_⟩
    · intro i
      simp only [find_context_core, hne, Bool.false_eq_true, if_false, h1]
      constructor
      · intro h
        obtain ⟨rfl, -⟩ : j1 = i ∧ (0 : Nat) = 0 := by simpa [Prod.ext_iff] using h
        exact hf1
      · intro hf
        rw [FirstHitFrom_unique hf1 hf]
    · intro i
      simp only [find_context_core, hne, Bool.false_eq_true, if_false, h1]
      constructor
      · intro h; simp [Prod.ext_iff] at h
      · rintro ⟨hn, -⟩; exact (FirstHitFrom_not_noHit hf1 hn).elim
    · intro i
      simp only [find_context_core, hne, Bool.false_eq_true, if_false, h1]
      constructor
      · intro h; simp [Prod.ext_iff] at h
      · rintro ⟨hn, -⟩; exact (FirstHitFrom_not_noHit hf1 hn).elim
    · simp only [find_context_core, hne, Bool.false_eq_true, if_false, h1]
      constructor
      · intro h; exact Option.noConfusion h
      · rintro ⟨hn, -⟩; exact (FirstHitFrom_not_noHit hf1 hn).elim

/-- Claim C2: context search tries the exact, right-trim and full-trim passes in order,
returning the first hit with fuzz weight 0 / 1 / 100 respectively; with the EOF sentinel
it first tries `len(file) - len(context)` and adds 10000 to the fuzz when only the
search from the ordinary start position succeeds; and when no pass matches, the section
resolution fails with the `Invalid Context <cursor>:\n<context>` message. -/
theorem find_context_spec (lines ctx : List String) (start : Nat) (hctx : ctx ≠ []) :
    (∀ i, find_context_core lines ctx start = some (i, 0) ↔ FirstHitFrom id lines ctx start i)
    ∧ (∀ i, find_context_core lines ctx start = some (i, 1) ↔
        NoHitFrom id lines ctx start ∧ FirstHitFrom String.trimRight lines ctx start i)
    ∧ (∀ i, find_context_core lines ctx start = some (i, 100) ↔
        NoHitFrom id lines ctx start ∧ NoHitFrom String.trimRight lines ctx start
          ∧ FirstHitFrom String.trim lines ctx start i)
    ∧ (find_context_core lines ctx start = none ↔
        NoHitFrom id lines ctx start ∧ NoHitFrom String.trimRight lines ctx start
          ∧ NoHitFrom String.trim lines ctx start)
    ∧ (∀ r, find_context_core lines ctx (lines.length - ctx.length) = some r →
        find_context lines ctx start true = some r)
    ∧ (∀ i f, find_context_core lines ctx (lines.length - ctx.length) = none →
        find_context_core lines ctx start = some (i, f) →
        find_context lines ctx start true = some (i, f + 10000))
    ∧ (find_context_core lines ctx (lines.length - ctx.length) = none →
        find_context_core lines ctx start = none →
        find_context lines ctx start true = none)
    ∧ (find_context lines ctx start false = find_context_core lines ctx start)
    ∧ (∀ eof, find_context lines ctx start eof = none →
        matchSection lines ctx start eof = .error (invalidContextMessage start ctx))
    ∧ (∀ eof r, find_context lines ctx start eof = some r →
        matchSection lines ctx start eof = .ok r) := by
  obtain ⟨hc1, hc2, hc3, hc4⟩ := find_context_core_classify lines ctx start hctx
  refine ⟨hc1, hc2, hc3, hc4, ?_, ?_, ?_, ?_, ?_, ?_⟩
  · intro r hr
    simp [find_context, hr]
  · intro i f he hs
    simp [find_context, he, hs]
  · intro he hs
    simp [find_context, he, hs]
  · simp [find_context]
  · intro eof hnone
    simp [matchSection, hnone]
  · intro eof r hsome
    simp [matchSection, hsome]

/-- Witness for C2: on the file `["ab", "cd"]` with context `["cd"]` from position 0 the
exact pass is characterised as the first hit at index 1, and without the EOF sentinel
`find_context` is the plain core search. -/
theorem find_context_spec_witness :
    FirstHitFrom id ["ab", "cd"] ["cd"] 0 1
    ∧ find_context ["ab", "cd"] ["cd"] 0 false = find_context_core ["ab", "cd"] ["cd"] 0 :=
  ⟨((find_context_spec ["ab", "cd"] ["cd"] 0 (by decide)).1 1).mp rfl,
    (find_context_spec ["ab", "cd"] ["cd"] 0 (by decide)).2.2.2.2.2.2.2.1⟩

/-! ## C3 / C10: `str_replace` occurrence counting -/

theorem str_replace_arm_cases (path content old_str new_str : String) :
    ((str_replace_arm path content old_str new_str).pushed = some content
      ∧ (str_replace_arm path content old_str new_str).written.isSome = true)
    ∨ ((str_replace_arm path content old_str new_str).pushed = none
      ∧ (str_replace_arm path content old_str new_str).written = none) := by
  unfold str_replace_arm
  by_cases h1 : old_str = new_str
  · right; simp [h1]
  · by_cases h2 : (match_indices content.data old_str.data).isEmpty
    · right; simp [h1, h2]
    · by_cases h3 : (match_indices content.data old_str.data).length > 1
      · right; simp [h1, h2, h3]
      · left; simp [h1, h2, h3]

/-- Claim C3: for an existing file and `old_str ≠ new_str`, the `str_replace` arm writes
the file exactly when the (non-overlapping) occurrence count of `old_str` is 1; in the
zero and multiple cases the state is untouched; the multiple case reports the 1-indexed
line numbers of every occurrence; and the written content is the single leftmost
replacement. -/
theorem str_replace_writes_iff_unique (path old_str new_str : String) (st : EditorState)
    (h : old_str ≠ new_str) :
    ((str_replace_arm path st.content old_str new_str).written.isSome = true ↔
      (match_indices st.content.data old_str.data).length = 1)
    ∧ ((match_indices st.content.data old_str.data).length ≠ 1 →
      (strReplaceStep path old_str new_str st).1 = st)
    ∧ ((match_indices st.content.data old_str.data).length = 1 →
      (strReplaceStep path old_str new_str st).1.content
        = String.mk (st.content.data.take ((match_indices st.content.data old_str.data).headD 0)
            ++ new_str.data
            ++ st.content.data.drop
                ((match_indices st.content.data old_str.data).headD 0 + old_str.length)))
    ∧ ((match_indices st.content.data old_str.data).length > 1 →
      (strReplaceStep path old_str new_str st).2
        = "Error: No replacement was performed. Multiple occurrences of old_str `"
          ++ old_str ++ "` in lines "
          ++ renderNatList
              ((match_indices st.content.data old_str.data).map (lineNumberAt st.content.data))
          ++ ". Please provide more context to make the match unique.") := by
  by_cases h2 : (match_indices st.content.data old_str.data).isEmpty
  · have hlen : (match_indices st.content.data old_str.data).length = 0 := by
      cases hc : match_indices st.content.data old_str.data
      · rfl
      · rw [hc] at h2; exact Bool.noConfusion h2
    refine ⟨?_, ?_, ?_, ?_⟩
    · simp [str_replace_arm, h, h2, hlen]
    · intro _
      simp [strReplaceStep, applyArm, str_replace_arm, h, h2]
    · intro hone; omega
    · intro hmul; omega
  · by_cases h3 : (match_indices st.content.data old_str.data).length > 1
    · refine ⟨?_, ?_, ?_, ?_⟩
      · simp only [str_replace_arm, if_neg h, h2, Bool.false_eq_true, if_false, h3, if_true]
        constructor
        · intro hfalse; exact Bool.noConfusion hfalse
        · intro hone; omega
      · intro _
        simp [strReplaceStep, applyArm, str_replace_arm, h, h2, h3]
      · intro hone; omega
      · intro _
        simp [strReplaceStep, applyArm, str_replace_arm, h, h2, h3]
    · have hone : (match_indices st.content.data old_str.data).length = 1 := by
        have hne0 : (match_indices st.content.data old_str.data).length ≠ 0 := by
          intro h0
          rcases List.length_eq_zero.mp h0 with hnil
          rw [hnil] at h2
          exact h2 rfl
        omega
      refine ⟨?_, ?_, ?_, ?_⟩
      · simp only [str_replace_arm, if_neg h]
        constructor
        · intro _; exact hone
        · intro _
          simp [h2, h3]
      · intro hne; exact absurd hone hne
      · intro _
        simp [strReplaceStep, applyArm, str_replace_arm, h, h2, h3]
      · intro hmul; omega

/-- Witness for C3 at the file `"hello world"`, replacing the unique `"world"`. -/
theorem str_replace_writes_iff_unique_witness :
    ("world" : String) ≠ "rust"
    ∧ ((str_replace_arm "f" "hello world" "world" "rust").written.isSome = true ↔
        (match_indices "hello world".data "world".data).length = 1)
    ∧ (match_indices "hello world".data "world".data).length = 1 :=
  ⟨by decide,
    (str_replace_writes_iff_unique "f" "world" "rust" ⟨"hello world", []⟩ (by decide)).1,
    by decide⟩

/-- Claim C10: occurrences are counted non-overlappingly from the left, so in `"aaa"`
the pattern `"aa"` is counted once (although it also occurs at position 1, overlapping),
and the replacement succeeds at the leftmost position. -/
theorem str_replace_nonoverlapping_aaa :
    match_indices "aaa".data "aa".data = [0]
    ∧ "aa".data.isPrefixOf ("aaa".data.drop 0) = true
    ∧ "aa".data.isPrefixOf ("aaa".data.drop 1) = true
    ∧ (str_replace_arm "f" "aaa" "aa" "b").written = some "ba" := by decide

/-! ## C4: `insert` position handling -/

/-- Claim C4 evaluated on the code: with file `"a\nb"` the argument `insert_line = 1`
inserts before the first line (the code computes the index `insert_line.saturating_sub(1)`,
so 0 and 1 both denote the top), not after skipping one line as the claim states; and
`insert_line = 3 = len + 1` is accepted (appending at the end) although the code's own
error message declares the allowed range `[0, 2]`, which only `insert_line = 4` violates. -/
theorem insert_line_off_by_one :
    (insert_arm "f" "a\nb" 1 "X").written = some "X\na\nb"
    ∧ (insert_arm "f" "a\nb" 1 "X").written ≠ some "a\nX\nb"
    ∧ (insert_arm "f" "a\nb" 0 "X").written = some "X\na\nb"
    ∧ (insert_arm "f" "a\nb" 3 "X").written = some "a\nb\nX"
    ∧ (insert_arm "f" "a\nb" 4 "X").written = none
    ∧ (insert_arm "f" "a\nb" 4 "X").output
      = "Error: insert_line 4 should be within the range of allowed values: [0, 2]" := by
  decide

/-! ## C5: history push/pop discipline -/

/-- Claim C5 (amended): `str_replace` pushes exactly one entry (the pre-operation
content) onto the path's history exactly when it succeeds, and leaves the state
untouched otherwise; `insert` pushes the pre-operation content whenever the file is
readable, even when `insert_line` validation then fails (the push precedes the check in
the source); `undo_edit` pops the stack top into the file and reports
`No edit history found` on an empty stack; consequently `undo_edit` after a single
`str_replace` or `insert` restores the prior content byte-exactly. -/
theorem editor_history_spec (path old_str new_str text : String) (insert_line : Nat)
    (st : EditorState) :
    ((str_replace_arm path st.content old_str new_str).written.isSome = true →
      (strReplaceStep path old_str new_str st).1.history = st.content :: st.history)
    ∧ ((str_replace_arm path st.content old_str new_str).written.isSome = false →
      (strReplaceStep path old_str new_str st).1 = st)
    ∧ ((insertStep path insert_line text st).1.history = st.content :: st.history)
    ∧ (st.history = [] →
      undoEditStep path st = (st, "Error: No edit history found for " ++ path))
    ∧ (∀ prev rest, st.history = prev :: rest →
      (undoEditStep path st).1 = ⟨prev, rest⟩)
    ∧ ((str_replace_arm path st.content old_str new_str).written.isSome = true →
      (undoEditStep path (strReplaceStep path old_str new_str st).1).1.content = st.content)
    ∧ ((undoEditStep path (insertStep path insert_line text st).1).1.content = st.content) := by
  have harm := str_replace_arm_cases path st.content old_str new_str
  have hins : (insert_arm path st.content insert_line text).pushed = some st.content := by
    unfold insert_arm
    by_cases hr : insert_line - 1 > (rustLines st.content).length
    · simp [hr]
    · simp [hr]
  refine ⟨?_, ?_, ?_, ?_, ?_, ?_, ?_⟩
  · intro hw
    rcases harm with ⟨hp, _⟩ | ⟨_, hw0⟩
    · simp [strReplaceStep, applyArm, hp]
    · rw [hw0] at hw; exact Bool.noConfusion hw
  · intro hw
    rcases harm with ⟨_, hw1⟩ | ⟨hp, hw0⟩
    · rw [hw1] at hw; exact Bool.noConfusion hw
    · simp [strReplaceStep, applyArm, hp, hw0]
  · simp [insertStep, applyArm, hins]
  · intro hh
    simp [undoEditStep, hh]
  · intro prev rest hh
    simp [undoEditStep, hh]
  · intro hw
    rcases harm with ⟨hp, _⟩ | ⟨_, hw0⟩
    · simp [undoEditStep, strReplaceStep, applyArm, hp]
    · rw [hw0] at hw; exact Bool.noConfusion hw
  · simp [undoEditStep, insertStep, applyArm, hins]

/-- Witness for C5: replacing `"world"` in `"hello world"` succeeds, pushes the prior
content, and `undo_edit` restores it. -/
theorem editor_history_spec_witness :
    (str_replace_arm "f" "hello world" "world" "rust").written.isSome = true
    ∧ (strReplaceStep "f" "world" "rust" ⟨"hello world", []⟩).1.history = ["hello world"]
    ∧ (undoEditStep "f" (strReplaceStep "f" "world" "rust" ⟨"hello world", []⟩).1).1.content
      = "hello world" := by
  refine ⟨by decide, ?_, ?_⟩
  · exact (editor_history_spec "f" "world" "rust" "t" 0 ⟨"hello world", []⟩).1 (by decide)
  · exact (editor_history_spec "f" "world" "rust" "t" 0 ⟨"hello world", []⟩).2.2.2.2.2.1 (by decide)

/-- Counterexample to C5 as stated: an unsuccessful `insert` (out-of-range
`insert_line = 5` on the one-line file `"a"`) still pushes an entry onto the history
stack, although the claim says unsuccessful operations push none. -/
theorem editor_history_failed_insert_pushes :
    (insertStep "f" 5 "X" ⟨"a", []⟩).1.history = ["a"]
    ∧ (insertStep "f" 5 "X" ⟨"a", []⟩).1.content = "a"
    ∧ (insertStep "f" 5 "X" ⟨"a", []⟩).2
      = "Error: insert_line 5 should be within the range of allowed values: [0, 1]" := by
  decide

/-! ## C6: RemoteRuntime dispatch table -/

/-- Claim C6 (amended): `RemoteRuntime::execute` routes the tool named `cmd` (not
`execute_bash`) to `POST /bash/execute_bash_command`, `read_file` to `POST /file/read`,
`write_file` to `POST /file/write`, and answers every other tool name with the
`not yet supported` message. -/
theorem remote_dispatch_spec :
    remote_execute_dispatch "cmd" = .ok "/bash/execute_bash_command"
    ∧ remote_execute_dispatch "read_file" = .ok "/file/read"
    ∧ remote_execute_dispatch "write_file" = .ok "/file/write"
    ∧ ∀ action, action ≠ "cmd" → action ≠ "read_file" → action ≠ "write_file" →
        remote_execute_dispatch action
          = .error ("Tool " ++ action ++ " not yet supported via RemoteRuntime API") := by
  refine ⟨rfl, rfl, rfl, ?_⟩
  intro a h1 h2 h3
  simp [remote_execute_dispatch, h1, h2, h3]

/-- Witness for C6 at the unmapped tool name `glob`. -/
theorem remote_dispatch_spec_witness :
    remote_execute_dispatch "glob"
      = .error ("Tool " ++ "glob" ++ " not yet supported via RemoteRuntime API") :=
  remote_dispatch_spec.2.2.2 "glob" (by decide) (by decide) (by decide)

/-- Counterexample to C6 as stated: the tool name `execute_bash` is not mapped to the
bash endpoint; it falls through to the unsupported-tool error. -/
theorem remote_dispatch_execute_bash_unsupported :
    remote_execute_dispatch "execute_bash"
      = .error "Tool execute_bash not yet supported via RemoteRuntime API"
    ∧ remote_execute_dispatch "execute_bash" ≠ .ok "/bash/execute_bash_command" := by
  refine ⟨rfl, ?_⟩
  intro hcontra
  rw [show remote_execute_dispatch "execute_bash"
      = .error "Tool execute_bash not yet supported via RemoteRuntime API" from rfl] at hcontra
  exact Except.noConfusion hcontra

/-! ## C8: bash timeout output -/

/-- Claim C8: when the deadline fires (the `Err` branch of `tokio::time::timeout`,
modelled as the `timedOut` outcome), the background task first kills the child and then
persists exactly one terminal `BashOutput` whose `exit_code` is `-1` and whose stderr
contains the literal substring `"timed out"`. -/
theorem bash_timeout_output_spec (command : BashCommandSpec) :
    ∃ out : BashOutputData,
      execute_bash_command_background command .timedOut = [.killChild, .saveOutput out]
      ∧ out.command_id = command.id
      ∧ out.exit_code = some (-1)
      ∧ out.order = 0
      ∧ ∃ pre post, out.stderr = some (pre ++ "timed out" ++ post) :=
  ⟨⟨command.id, 0, some (-1), none, some "Command timed out"⟩,
    rfl, rfl, rfl, rfl, "Command ", "", rfl⟩

/-! ## C9: `view` on an empty file -/

/-- Claim C9 evaluated on the failing input: for an existing empty file with no
`view_range`, the resolved bounds are `start_line = 1`, `end_line = 0`, and the snippet
length `end_line - start_line + 1` underflows `usize`: under debug-profile semantics the
subtraction panics (`none`) instead of returning, while under release (wrapping)
semantics the expression wraps to a zero-line take and the handler returns.  A non-empty
file is unaffected under either semantics. -/
theorem view_empty_file_underflow :
    view_arm_checked "f" "" none = none
    ∧ view_arm_wrap "f" "" none = "Here's the result of running `cat -n` on f:\n\n"
    ∧ view_arm_checked "f" "hello world" none
      = some "Here's the result of running `cat -n` on f:\n     1\thello world\n"
    ∧ view_arm_wrap "f" "hello world" none
      = "Here's the result of running `cat -n` on f:\n     1\thello world\n" :=
  ⟨rfl, rfl, rfl, rfl⟩

/-! ## C7: agent loop termination and iteration cap -/

theorem stepLoop_all_calls (llm : List ChatMsg → Completion)
    (exec : String → String → Except String String) :
    ∀ (n : Nat) (msgs : List ChatMsg),
      (∀ k < n, (llm ((iterBody llm exec)^[k] msgs)).tool_calls ≠ []) →
      stepLoop llm exec n msgs = .error "Max iterations reached" := by
  intro n
  induction n with
  | zero => intro msgs _; rfl
  | succ n ih =>
    intro msgs h
    have h0 := h 0 (Nat.succ_pos n)
    rw [Function.iterate_zero, id] at h0
    have hne : (llm msgs).tool_calls.isEmpty = false := by
      cases hc : (llm msgs).tool_calls
      · exact absurd hc h0
      · rfl
    simp only [stepLoop, hne, Bool.false_eq_true, if_false]
    apply ih
    intro k hk
    rw [← Function.iterate_succ_apply]
    exact h (k + 1) (by omega)

theorem stepLoop_first_empty (llm : List ChatMsg → Completion)
    (exec : String → String → Except String String) :
    ∀ (n : Nat) (msgs : List ChatMsg) (k : Nat), k < n →
      (llm ((iterBody llm exec)^[k] msgs)).tool_calls = [] →
      (∀ j < k, (llm ((iterBody llm exec)^[j] msgs)).tool_calls ≠ []) →
      stepLoop llm exec n msgs
        = .ok (.message "agent" (llm ((iterBody llm exec)^[k] msgs)).content) := by
  intro n
  induction n with
  | zero => intro msgs k hk; omega
  | succ n ih =>
    intro msgs k hk hempty hprev
    cases k with
    | zero =>
      rw [Function.iterate_zero, id] at hempty
      simp only [stepLoop, hempty, List.isEmpty_nil, if_true]
      rw [Function.iterate_zero, id]
    | succ k =>
      have h0 := hprev 0 (Nat.succ_pos k)
      rw [Function.iterate_zero, id] at h0
      have hne : (llm msgs).tool_calls.isEmpty = false := by
        cases hc : (llm msgs).tool_calls
        · exact absurd hc h0
        · rfl
      simp only [stepLoop, hne, Bool.false_eq_true, if_false]
      rw [ih (iterBody llm exec msgs) k (by omega)
        (by rw [← Function.iterate_succ_apply]; exact hempty)
        (fun j hj => by rw [← Function.iterate_succ_apply]; exact hprev (j + 1) (by omega))]
      rw [Function.iterate_succ_apply]

/-- Claim C7: `Agent::step` performs at most 10 model iterations.  If every one of the
first 10 completions carries tool calls, the step is the fatal
`Max iterations reached` error; if the completions at rounds `0..k` carry tool calls and
the one at round `k < 10` carries none, the step returns the agent `Message` with that
completion's content; and within one iteration the transcript grows by the assistant
turn followed by one tool response per emitted tool call, in the model's emission order
(so the calls are executed sequentially in that order). -/
theorem agent_step_spec (llm : List ChatMsg → Completion)
    (exec : String → String → Except String String) (system_message : String)
    (history : List AgentEvent) :
    ((∀ k < 10,
        (llm ((iterBody llm exec)^[k] (historyToMessages system_message history))).tool_calls ≠ []) →
      agentStep llm exec system_message history = .error "Max iterations reached")
    ∧ (∀ k < 10,
        (llm ((iterBody llm exec)^[k] (historyToMessages system_message history))).tool_calls = [] →
        (∀ j < k,
          (llm ((iterBody llm exec)^[j] (historyToMessages system_message history))).tool_calls ≠ []) →
        agentStep llm exec system_message history
          = .ok (.message "agent"
              (llm ((iterBody llm exec)^[k] (historyToMessages system_message history))).content))
    ∧ (∀ msgs, (llm msgs).tool_calls ≠ [] →
        iterBody llm exec msgs
          = msgs ++ [assistantTurn (llm msgs)]
            ++ (llm msgs).tool_calls.map
                fun tc => ChatMsg.toolResponse tc.call_id (toolOutput exec tc)) := by
  refine ⟨?_, ?_, ?_⟩
  · intro h
    exact stepLoop_all_calls llm exec 10 (historyToMessages system_message history) h
  · intro k hk hempty hprev
    exact stepLoop_first_empty llm exec 10 (historyToMessages system_message history) k hk hempty hprev
  · intro msgs hne
    have hbe : (llm msgs).tool_calls.isEmpty = false := by
      cases hc : (llm msgs).tool_calls
      · exact absurd hc hne
      · rfl
    simp [iterBody, hbe, assistantTurn, List.append_assoc]

/-- Witness for C7: a model that immediately answers terminates with the agent message,
and a model that always emits a tool call exhausts the 10-iteration budget. -/
theorem agent_step_spec_witness :
    agentStep (fun _ => ⟨"done", []⟩) (fun _ _ => .ok "out") "sys" []
      = .ok (.message "agent" "done")
    ∧ agentStep (fun _ => ⟨"", [⟨"id1", "cmd", "args"⟩]⟩) (fun _ _ => .ok "out") "sys" []
      = .error "Max iterations reached" := by
  constructor
  · exact (agent_step_spec (fun _ => ⟨"done", []⟩) (fun _ _ => .ok "out") "sys" []).2.1 0
      (by omega) rfl (fun j hj => absurd hj (Nat.not_lt_zero j))
  · exact (agent_step_spec (fun _ => ⟨"", [⟨"id1", "cmd", "args"⟩]⟩)
      (fun _ _ => .ok "out") "sys" []).1 (fun k hk => List.cons_ne_nil _ _)
